import Mathlib

/-
Verification of the LyricalEditorPlus time codec, format detector, parsers and
serializers.  Strings are modelled as `List Char`; JavaScript numbers as
`Option ℚ` with `none` standing for NaN (finite values are exact rationals;
overflow to Infinity is not modelled and never arises on the inputs studied
here).  Every definition is translated from the source files; regular
expressions are compiled by hand to maximal-munch scanners, which coincide
with backtracking semantics because in every pattern used by the code a
bounded digit group is followed by a non-digit literal or the end anchor.
-/

namespace LyricalEditor

/-- Model of a JavaScript number as it occurs in this code base: `none` is NaN,
`some q` a finite value. -/
abbrev JsNum := Option ℚ

/-- NaN-propagating addition of JS numbers. -/
def jsAdd : JsNum → JsNum → JsNum
  | some x, some y => some (x + y)
  | _, _ => none

/-- NaN-propagating subtraction of JS numbers. -/
def jsSub : JsNum → JsNum → JsNum
  | some x, some y => some (x - y)
  | _, _ => none

/-- Model of `Math.max` on two JS numbers (NaN-propagating). -/
def jsMax : JsNum → JsNum → JsNum
  | some x, some y => some (max x y)
  | _, _ => none

/-- Numeric value of an ASCII digit character. -/
def digitVal (c : Char) : Nat := c.toNat - 48

/-- The ASCII digit character of a value below ten. -/
def digitChar : Nat → Char
  | 0 => '0'
  | 1 => '1'
  | 2 => '2'
  | 3 => '3'
  | 4 => '4'
  | 5 => '5'
  | 6 => '6'
  | 7 => '7'
  | 8 => '8'
  | 9 => '9'
  | _ => '?'

/-- Value of a string of decimal digits, most significant first; this models
`parseInt(s, 10)` on the all-digit capture groups the code feeds it. -/
def digitsToNat (l : List Char) : Nat := l.foldl (fun acc c => acc * 10 + digitVal c) 0

/-- Auxiliary loop producing the decimal digits of a positive number; the
first argument is fuel (any value at least the digit count works, and the
callers pass the number itself), keeping the recursion structural so that
terms reduce inside the kernel. -/
def natToDigitsAux : Nat → Nat → List Char → List Char
  | 0, _, acc => acc
  | fuel + 1, n, acc =>
    if n = 0 then acc else natToDigitsAux fuel (n / 10) (digitChar (n % 10) :: acc)

/-- Decimal digit string of a natural number, as JS `toString` renders
nonnegative integers. -/
def natToDigits (n : Nat) : List Char := if n = 0 then ['0'] else natToDigitsAux n n []

/-- Model of `String.prototype.padStart(w, '0')`. -/
def padStart (w : Nat) (l : List Char) : List Char := List.replicate (w - l.length) '0' ++ l

/-- Zero-padded decimal rendering of a natural number. -/
def padNat (w n : Nat) : List Char := padStart w (natToDigits n)

/-- Rendering of an integer as JS `toString` does. -/
def intToString (i : Int) : List Char :=
  if i < 0 then '-' :: natToDigits i.natAbs else natToDigits i.toNat

/-- Zero-padded rendering of an integer. -/
def padInt (w : Nat) (i : Int) : List Char := padStart w (intToString i)

/-- Model of `Math.round` on a finite value: floor of `q + 1/2`, which is the
half-up rounding JS uses (also for negative arguments). -/
def jsRound (q : ℚ) : Int := ⌊q + 1 / 2⌋

/-- Truncation toward zero, as the JS `%` operator applies to its operands'
quotient. -/
def ratTrunc (q : ℚ) : Int := if 0 ≤ q then ⌊q⌋ else -⌊-q⌋

/-- Model of the JS `%` remainder operator (result carries the dividend's
sign) on finite numbers. -/
def jsRem (a b : ℚ) : ℚ := a - b * ((ratTrunc (a / b) : ℚ))

/-- Model of `Math.floor` on a finite value. -/
def jsFloor (q : ℚ) : Int := ⌊q⌋

/-- Rendering of NaN through `toString`/`padStart`: the three characters of
the word NaN (already at least two and three wide, so padding is inert). -/
def nanChunk : List Char := ['N', 'a', 'N']

/-- Division-based SRT encoder (second `msToSrt` in the source):
hours, minutes, seconds, milliseconds by integer division and remainder on the
rounded total, rendered `HH:MM:SS,mmm`. -/
def msToSrt : JsNum → List Char
  | none => nanChunk ++ ':' :: nanChunk ++ ':' :: nanChunk ++ ',' :: nanChunk
  | some q =>
    let r : ℚ := (jsRound q : ℚ)
    padInt 2 (jsFloor (r / 3600000)) ++ ':' :: padInt 2 (jsFloor (jsRem r 3600000 / 60000)) ++
      ':' :: padInt 2 (jsFloor (jsRem r 60000 / 1000)) ++ ',' :: padInt 3 (ratTrunc (jsRem r 1000))

/-- Division-based VTT encoder (`msToVtt` in the source): same decomposition
as `msToSrt`, with a dot before the milliseconds. -/
def msToVtt : JsNum → List Char
  | none => nanChunk ++ ':' :: nanChunk ++ ':' :: nanChunk ++ '.' :: nanChunk
  | some q =>
    let r : ℚ := (jsRound q : ℚ)
    padInt 2 (jsFloor (r / 3600000)) ++ ':' :: padInt 2 (jsFloor (jsRem r 3600000 / 60000)) ++
      ':' :: padInt 2 (jsFloor (jsRem r 60000 / 1000)) ++ '.' :: padInt 3 (ratTrunc (jsRem r 1000))

/-- LRC encoder (`msToLrc` in the source): the input is first rounded to the
nearest centisecond, then decomposed as `MM:SS.cc`. -/
def msToLrc : JsNum → List Char
  | none => nanChunk ++ ':' :: nanChunk ++ '.' :: nanChunk
  | some q =>
    let r : ℚ := ((jsRound (q / 10) : ℚ)) * 10
    padInt 2 (jsFloor (r / 60000)) ++ ':' :: padInt 2 (jsFloor (jsRem r 60000 / 1000)) ++
      '.' :: padInt 2 (jsFloor (jsRem r 1000 / 10))

/-- Calendar-based SRT encoder (first `msToSrt` in the source): hours are
computed by division directly from the argument, while minutes, seconds and
milliseconds are read from `new Date(ms)` through the UTC accessors, which
truncate the argument toward zero and then extract floor-based calendar
fields. -/
def msToSrtDate : JsNum → List Char
  | none => nanChunk ++ ':' :: nanChunk ++ ':' :: nanChunk ++ ',' :: nanChunk
  | some q =>
    let t : Int := ratTrunc q
    padInt 2 (jsFloor (q / 3600000)) ++ ':' :: padInt 2 (Int.fmod (Int.fdiv t 60000) 60) ++
      ':' :: padInt 2 (Int.fmod (Int.fdiv t 1000) 60) ++ ',' :: padInt 3 (Int.fmod t 1000)

/-- ASCII whitespace recognised by `String.prototype.trim` (the Unicode space
characters never occur in this development). -/
def isJsWs (c : Char) : Bool :=
  c = ' ' || c = '\t' || c = '\n' || c = '\r' || c = '\x0b' || c = '\x0c'

/-- Model of `String.prototype.trim`. -/
def jsTrim (l : List Char) : List Char :=
  ((l.dropWhile isJsWs).reverse.dropWhile isJsWs).reverse

/-- Model of `String.prototype.endsWith`. -/
def jsEndsWith (l suf : List Char) : Bool := suf.reverse.isPrefixOf l.reverse

/-- Model of `String.prototype.startsWith`. -/
def jsStartsWith (l pre : List Char) : Bool := pre.isPrefixOf l

/-- Value of an integer digit string together with a fraction digit string. -/
def decimalValue (ip fp : List Char) : ℚ :=
  (digitsToNat ip : ℚ) + (digitsToNat fp : ℚ) / (10 : ℚ) ^ fp.length

/-- Scale contributed by exponent digits after an `e`. -/
def parseExpoDigits (neg : Bool) (r : List Char) : ℚ :=
  match r.takeWhile Char.isDigit with
  | [] => 1
  | ds => if neg then 1 / (10 : ℚ) ^ digitsToNat ds else (10 : ℚ) ^ digitsToNat ds

/-- Scale contributed by an optional exponent following the mantissa of a JS
float literal; `1` when no well-formed exponent follows, since `parseFloat`
keeps only the longest valid prefix. -/
def parseExpo (l : List Char) : ℚ :=
  match l with
  | 'e' :: '-' :: r => parseExpoDigits true r
  | 'e' :: '+' :: r => parseExpoDigits false r
  | 'e' :: r => parseExpoDigits false r
  | 'E' :: '-' :: r => parseExpoDigits true r
  | 'E' :: '+' :: r => parseExpoDigits false r
  | 'E' :: r => parseExpoDigits false r
  | _ => 1

/-- Mantissa (and trailing exponent) of a JS float literal; `none` when not
even one digit is present. -/
def parseFloatMantissa (l : List Char) : Option ℚ :=
  let ip := l.takeWhile Char.isDigit
  let r1 := l.dropWhile Char.isDigit
  if r1.head? = some '.' then
    let r2 := r1.tail
    let fp := r2.takeWhile Char.isDigit
    if ip = [] ∧ fp = [] then none
    else some (decimalValue ip fp * parseExpo (r2.dropWhile Char.isDigit))
  else if ip = [] then none
  else some ((digitsToNat ip : ℚ) * parseExpo r1)

/-- Model of the JS builtin `parseFloat`: skip leading whitespace, read an
optional sign, then the longest decimal-literal prefix; `none` models NaN.
An `Infinity` literal is not modelled; none of the code's inputs produce
one. -/
def parseFloat (l : List Char) : Option ℚ :=
  match l.dropWhile isJsWs with
  | [] => parseFloatMantissa []
  | c :: r =>
    if c = '-' then (parseFloatMantissa r).map (fun q => -q)
    else if c = '+' then parseFloatMantissa r
    else parseFloatMantissa (c :: r)

/-- Hand compilation of the match
`/^(\d{1,2}):(\d{2})(?:\.(\d{1,3}))?$/` used by `timeToMs`, returning the
minute, second and optional fraction capture groups.  Maximal-munch digit
spans coincide with the regex's backtracking because each digit group is
followed by a non-digit or the end anchor. -/
def lrcTimeMatch (l : List Char) : Option (List Char × List Char × Option (List Char)) :=
  let d1 := l.takeWhile Char.isDigit
  if 1 ≤ d1.length ∧ d1.length ≤ 2 then
    match l.dropWhile Char.isDigit with
    | ':' :: x :: y :: r3 =>
      if x.isDigit ∧ y.isDigit then
        match r3 with
        | [] => some (d1, [x, y], none)
        | '.' :: r4 =>
          if 1 ≤ r4.length ∧ r4.length ≤ 3 ∧ r4.all Char.isDigit then
            some (d1, [x, y], some r4)
          else none
        | _ => none
      else none
    | _ => none
  else none

/-- Hand compilation of `(\d{1,2}):(\d{1,2})[.,](\d{1,3})$`, the hourless arm
of the full timestamp match. -/
def fullTimeNoHours (l : List Char) :
    Option (Option (List Char) × List Char × List Char × List Char) :=
  let d2 := l.takeWhile Char.isDigit
  if 1 ≤ d2.length ∧ d2.length ≤ 2 then
    match l.dropWhile Char.isDigit with
    | ':' :: r =>
      let d3 := r.takeWhile Char.isDigit
      if 1 ≤ d3.length ∧ d3.length ≤ 2 then
        match r.dropWhile Char.isDigit with
        | c :: r2 =>
          if c = '.' ∨ c = ',' then
            let d4 := r2.takeWhile Char.isDigit
            if 1 ≤ d4.length ∧ d4.length ≤ 3 ∧ r2.dropWhile Char.isDigit = [] then
              some (none, d2, d3, d4)
            else none
          else none
        | [] => none
      else none
    | _ => none
  else none

/-- Arm of the full timestamp match in which the optional hours group is
present. -/
def fullTimeWithHours (l : List Char) :
    Option (Option (List Char) × List Char × List Char × List Char) :=
  let d1 := l.takeWhile Char.isDigit
  if 1 ≤ d1.length ∧ d1.length ≤ 2 then
    match l.dropWhile Char.isDigit with
    | ':' :: r => (fullTimeNoHours r).map (fun g => (some d1, g.2.1, g.2.2.1, g.2.2.2))
    | _ => none
  else none

/-- Hand compilation of the match
`/^(?:(\d{1,2}):)?(\d{1,2}):(\d{1,2})[.,](\d{1,3})$/` of `timeToMs`: the
greedy optional group is tried first, then dropped. -/
def fullTimeMatch (l : List Char) :
    Option (Option (List Char) × List Char × List Char × List Char) :=
  (fullTimeWithHours l).orElse (fun _ => fullTimeNoHours l)

/-- Hand compilation of the test `/^\d+(\.\d+)?$/` of `timeToMs`. -/
def bareNumericTest (l : List Char) : Bool :=
  let ip := l.takeWhile Char.isDigit
  !ip.isEmpty &&
    (match l.dropWhile Char.isDigit with
     | [] => true
     | '.' :: r => !(r.takeWhile Char.isDigit).isEmpty && (r.dropWhile Char.isDigit).isEmpty
     | _ => false)

/-- Decoder `timeToMs` (second version in the source): parses a timestamp
string to milliseconds.  The result is a JS number; `none` (NaN) can arise
only from the two suffix branches, whose `parseFloat` may fail. -/
def timeToMs (l : List Char) : JsNum :=
  if l = [] then some 0
  else
    let cleanStr := jsTrim l
    if jsEndsWith cleanStr ['m', 's'] then parseFloat (cleanStr.take (cleanStr.length - 2))
    else if jsEndsWith cleanStr ['s'] then
      (parseFloat (cleanStr.take (cleanStr.length - 1))).map (fun q => q * 1000)
    else
      match lrcTimeMatch cleanStr with
      | some (mg, sg, fg) =>
        let m := digitsToNat mg
        let s := digitsToNat sg
        let msStr := fg.getD ['0']
        let msv : Nat :=
          if msStr.length = 3 then digitsToNat msStr
          else if msStr.length = 2 then digitsToNat msStr * 10
          else if msStr.length = 1 then digitsToNat msStr * 100
          else digitsToNat msStr
        some ((m * 60000 + s * 1000 + msv : Nat) : ℚ)
      | none =>
        match fullTimeMatch cleanStr with
        | some (hg, mg, sg, fg) =>
          let h := match hg with | some d => digitsToNat d | none => 0
          let m := digitsToNat mg
          let s := digitsToNat sg
          let msv : Nat :=
            if fg.length = 1 then digitsToNat fg * 100
            else if fg.length = 2 then digitsToNat fg * 10
            else digitsToNat fg
          some ((h * 3600000 + m * 60000 + s * 1000 + msv : Nat) : ℚ)
        | none =>
          if bareNumericTest cleanStr then (parseFloat cleanStr).map (fun q => q * 1000)
          else some 0

/-! Basic facts about digit characters and decimal rendering. -/

theorem isDigit_digitChar {d : Nat} (h : d < 10) : (digitChar d).isDigit = true := by
  interval_cases d <;> rfl

theorem digitVal_digitChar {d : Nat} (h : d < 10) : digitVal (digitChar d) = d := by
  interval_cases d <;> rfl

theorem isJsWs_digitChar {d : Nat} (h : d < 10) : isJsWs (digitChar d) = false := by
  interval_cases d <;> rfl

theorem s_beq_digitChar {d : Nat} (h : d < 10) : ('s' == digitChar d) = false := by
  interval_cases d <;> decide

theorem digitChar_ne_colon {d : Nat} (h : d < 10) : (digitChar d = ':') = False := by
  interval_cases d <;> decide

theorem natToDigitsAux_n_zero (f : Nat) (acc : List Char) : natToDigitsAux f 0 acc = acc := by
  cases f <;> rfl

theorem natToDigitsAux_step {f n : Nat} (acc : List Char) (hf : f ≠ 0) (h : n ≠ 0) :
    natToDigitsAux f n acc = natToDigitsAux (f - 1) (n / 10) (digitChar (n % 10) :: acc) := by
  obtain ⟨g, rfl⟩ : ∃ g, f = g + 1 := ⟨f - 1, by omega⟩
  rw [natToDigitsAux, if_neg h, Nat.add_sub_cancel]

theorem natToDigits_one {n : Nat} (h : n < 10) : natToDigits n = [digitChar n] := by
  by_cases h0 : n = 0
  · subst h0; rfl
  · rw [natToDigits, if_neg h0, natToDigitsAux_step _ h0 h0,
      Nat.div_eq_of_lt h, natToDigitsAux_n_zero, Nat.mod_eq_of_lt h]

theorem natToDigits_two {n : Nat} (h1 : 10 ≤ n) (h2 : n < 100) :
    natToDigits n = [digitChar (n / 10), digitChar (n % 10)] := by
  have h0 : n ≠ 0 := by omega
  have hq : n / 10 ≠ 0 := by omega
  have hqlt : n / 10 < 10 := by omega
  rw [natToDigits, if_neg h0, natToDigitsAux_step _ h0 h0,
    natToDigitsAux_step _ (by omega) hq, Nat.div_div_eq_div_mul]
  have : n / 100 = 0 := by omega
  rw [this, natToDigitsAux_n_zero, Nat.mod_eq_of_lt hqlt]

theorem natToDigits_three {n : Nat} (h1 : 100 ≤ n) (h2 : n < 1000) :
    natToDigits n = [digitChar (n / 100), digitChar (n / 10 % 10), digitChar (n % 10)] := by
  have h0 : n ≠ 0 := by omega
  have hq : n / 10 ≠ 0 := by omega
  have hqq : n / 100 ≠ 0 := by omega
  have hqqlt : n / 100 < 10 := by omega
  rw [natToDigits, if_neg h0, natToDigitsAux_step _ h0 h0,
    natToDigitsAux_step _ (by omega) hq, Nat.div_div_eq_div_mul,
    natToDigitsAux_step _ (by omega) hqq, Nat.div_div_eq_div_mul]
  have : n / 1000 = 0 := by omega
  rw [this, natToDigitsAux_n_zero, Nat.mod_eq_of_lt hqqlt]

theorem padNat_two {n : Nat} (h : n < 100) :
    padNat 2 n = [digitChar (n / 10), digitChar (n % 10)] := by
  by_cases h1 : n < 10
  · have : n / 10 = 0 := by omega
    rw [padNat, natToDigits_one h1, this]
    have : n % 10 = n := by omega
    rw [this]; rfl
  · rw [padNat, natToDigits_two (by omega) h]; rfl

theorem padNat_three {n : Nat} (h : n < 1000) :
    padNat 3 n = [digitChar (n / 100), digitChar (n / 10 % 10), digitChar (n % 10)] := by
  by_cases h1 : n < 10
  · have e1 : n / 100 = 0 := by omega
    have e2 : n / 10 % 10 = 0 := by omega
    have e3 : n % 10 = n := by omega
    rw [padNat, natToDigits_one h1, e1, e2, e3]; rfl
  · by_cases h2 : n < 100
    · have e1 : n / 100 = 0 := by omega
      have e2 : n / 10 % 10 = n / 10 := by omega
      rw [padNat, natToDigits_two (by omega) h2, e1, e2]; rfl
    · rw [padNat, natToDigits_three (by omega) h]; rfl

theorem digitsToNat_one {a : Nat} (ha : a < 10) : digitsToNat [digitChar a] = a := by
  simp [digitsToNat, digitVal_digitChar ha]

theorem digitsToNat_two {a b : Nat} (ha : a < 10) (hb : b < 10) :
    digitsToNat [digitChar a, digitChar b] = a * 10 + b := by
  simp [digitsToNat, digitVal_digitChar ha, digitVal_digitChar hb]

theorem digitsToNat_three {a b c : Nat} (ha : a < 10) (hb : b < 10) (hc : c < 10) :
    digitsToNat [digitChar a, digitChar b, digitChar c] = a * 100 + b * 10 + c := by
  simp [digitsToNat, digitVal_digitChar ha, digitVal_digitChar hb, digitVal_digitChar hc]
  ring

/-! Bridging lemmas between the rational arithmetic of the JS model and
natural-number arithmetic, for nonnegative integer inputs. -/

theorem floor_natCast_div (a b : Nat) :
    ⌊(a : ℚ) / (b : ℚ)⌋ = (a / b : Nat) := by
  rw [Rat.floor_natCast_div_natCast a b]
  exact (Int.natCast_div a b).symm

theorem ratTrunc_natCast_div (a b : Nat) :
    ratTrunc ((a : ℚ) / (b : ℚ)) = (a / b : Nat) := by
  rw [ratTrunc, if_pos (by positivity), floor_natCast_div a b]

theorem jsRem_natCast (a b : Nat) :
    jsRem (a : ℚ) (b : ℚ) = ((a % b : Nat) : ℚ) := by
  rw [jsRem, ratTrunc_natCast_div a b]
  have key : (a : ℚ) = (b : ℚ) * ((a / b : ℕ) : ℚ) + ((a % b : ℕ) : ℚ) := by
    exact_mod_cast (Nat.div_add_mod a b).symm
  rw [Int.cast_natCast]
  linarith [key]

theorem jsRound_natCast (a : Nat) : jsRound (a : ℚ) = (a : Int) := by
  rw [jsRound]
  have : ((a : ℚ) + 1 / 2) = ((2 * a + 1 : Nat) : ℚ) / ((2 : Nat) : ℚ) := by
    push_cast; ring
  rw [this, floor_natCast_div _ 2]
  omega

theorem ratTrunc_natCast (a : Nat) : ratTrunc (a : ℚ) = (a : Int) := by
  rw [ratTrunc, if_pos (by positivity), Int.floor_natCast]

theorem padInt_natCast (w a : Nat) : padInt w (a : Int) = padNat w a := by
  rw [padInt, intToString, if_neg (by omega), padNat, Int.toNat_natCast]

theorem int_fdiv_natCast (a b : ℕ) : Int.fdiv (a : ℤ) (b : ℤ) = ((a / b : ℕ) : ℤ) :=
  (Int.ofNat_fdiv a b).symm

theorem int_fmod_natCast (a b : ℕ) : Int.fmod (a : ℤ) (b : ℤ) = ((a % b : ℕ) : ℤ) := by
  rw [Int.fmod_eq_emod _ (by positivity)]
  omega

/-! Reduction of the encoders, applied to a nonnegative integer, to pure
natural-number decompositions. -/

theorem msToSrt_natCast (ms : Nat) :
    msToSrt (some (ms : ℚ)) = padNat 2 (ms / 3600000) ++ ':' :: padNat 2 (ms % 3600000 / 60000) ++
      ':' :: padNat 2 (ms % 60000 / 1000) ++ ',' :: padNat 3 (ms % 1000) := by
  simp only [msToSrt, jsFloor]
  rw [jsRound_natCast, Int.cast_natCast]
  rw [show (3600000 : ℚ) = ((3600000 : ℕ) : ℚ) from by norm_num,
    show (60000 : ℚ) = ((60000 : ℕ) : ℚ) from by norm_num,
    show (1000 : ℚ) = ((1000 : ℕ) : ℚ) from by norm_num]
  rw [jsRem_natCast ms 3600000, jsRem_natCast ms 60000, jsRem_natCast ms 1000,
    floor_natCast_div ms 3600000, floor_natCast_div (ms % 3600000) 60000,
    floor_natCast_div (ms % 60000) 1000,
    ratTrunc_natCast, padInt_natCast, padInt_natCast, padInt_natCast, padInt_natCast]

theorem msToVtt_natCast (ms : Nat) :
    msToVtt (some (ms : ℚ)) = padNat 2 (ms / 3600000) ++ ':' :: padNat 2 (ms % 3600000 / 60000) ++
      ':' :: padNat 2 (ms % 60000 / 1000) ++ '.' :: padNat 3 (ms % 1000) := by
  simp only [msToVtt, jsFloor]
  rw [jsRound_natCast, Int.cast_natCast]
  rw [show (3600000 : ℚ) = ((3600000 : ℕ) : ℚ) from by norm_num,
    show (60000 : ℚ) = ((60000 : ℕ) : ℚ) from by norm_num,
    show (1000 : ℚ) = ((1000 : ℕ) : ℚ) from by norm_num]
  rw [jsRem_natCast ms 3600000, jsRem_natCast ms 60000, jsRem_natCast ms 1000,
    floor_natCast_div ms 3600000, floor_natCast_div (ms % 3600000) 60000,
    floor_natCast_div (ms % 60000) 1000,
    ratTrunc_natCast, padInt_natCast, padInt_natCast, padInt_natCast, padInt_natCast]

theorem msToLrc_natCast (ms : Nat) :
    msToLrc (some (ms : ℚ)) = padNat 2 ((ms + 5) / 10 * 10 / 60000) ++
      ':' :: padNat 2 ((ms + 5) / 10 * 10 % 60000 / 1000) ++
      '.' :: padNat 2 ((ms + 5) / 10 * 10 % 1000 / 10) := by
  simp only [msToLrc, jsFloor]
  have hr : jsRound ((ms : ℚ) / 10) = (((ms + 5) / 10 : ℕ) : ℤ) := by
    rw [jsRound]
    have e : ((ms : ℚ) / 10 + 1 / 2) = (((ms + 5 : ℕ) : ℚ)) / (((10 : ℕ) : ℚ)) := by
      push_cast; ring
    rw [e, floor_natCast_div _ 10]
  rw [hr, Int.cast_natCast]
  rw [show ((((ms + 5) / 10 : ℕ) : ℚ) * 10) = (((ms + 5) / 10 * 10 : ℕ) : ℚ) from by
    push_cast; ring]
  rw [show (60000 : ℚ) = ((60000 : ℕ) : ℚ) from by norm_num,
    show (1000 : ℚ) = ((1000 : ℕ) : ℚ) from by norm_num,
    show (10 : ℚ) = ((10 : ℕ) : ℚ) from by norm_num]
  rw [jsRem_natCast _ 60000, jsRem_natCast _ 1000,
    floor_natCast_div _ 60000, floor_natCast_div _ 1000, floor_natCast_div _ 10,
    padInt_natCast, padInt_natCast, padInt_natCast]

theorem msToSrtDate_natCast (ms : Nat) :
    msToSrtDate (some (ms : ℚ)) = padNat 2 (ms / 3600000) ++ ':' :: padNat 2 (ms / 60000 % 60) ++
      ':' :: padNat 2 (ms / 1000 % 60) ++ ',' :: padNat 3 (ms % 1000) := by
  simp only [msToSrtDate, jsFloor]
  rw [ratTrunc_natCast]
  rw [show (3600000 : ℚ) = ((3600000 : ℕ) : ℚ) from by norm_num]
  rw [floor_natCast_div ms 3600000]
  rw [show ((60000 : ℤ)) = ((60000 : ℕ) : ℤ) from by norm_num,
    show ((1000 : ℤ)) = ((1000 : ℕ) : ℤ) from by norm_num,
    show ((60 : ℤ)) = ((60 : ℕ) : ℤ) from by norm_num]
  rw [int_fdiv_natCast, int_fdiv_natCast, int_fmod_natCast, int_fmod_natCast, int_fmod_natCast]
  rw [padInt_natCast, padInt_natCast, padInt_natCast, padInt_natCast]

/-! Symbolic evaluation of the decoder on the strings the encoders build. -/

theorem dropWhile_false_of {p : Char → Bool} {l : List Char} (h : ∀ c ∈ l, p c = false) :
    l.dropWhile p = l := by
  cases l with
  | nil => rfl
  | cons a as => rw [List.dropWhile_cons, h a (List.mem_cons_self a as)]; simp

theorem jsTrim_eq_self {l : List Char} (h : ∀ c ∈ l, isJsWs c = false) : jsTrim l = l := by
  rw [jsTrim, dropWhile_false_of h, dropWhile_false_of (fun c hc => h c (List.mem_reverse.mp hc)),
    List.reverse_reverse]

theorem timeToMs_full_decode (a b c d e f g i j : Nat) (sep : Char)
    (ha : a < 10) (hb : b < 10) (hc : c < 10) (hd : d < 10) (he : e < 10) (hf : f < 10)
    (hg : g < 10) (hi : i < 10) (hj : j < 10) (hsep : sep = '.' ∨ sep = ',') :
    timeToMs [digitChar a, digitChar b, ':', digitChar c, digitChar d, ':',
      digitChar e, digitChar f, sep, digitChar g, digitChar i, digitChar j] =
    some (((a * 10 + b) * 3600000 + (c * 10 + d) * 60000 + (e * 10 + f) * 1000 +
      (g * 100 + i * 10 + j) : Nat) : ℚ) := by
  have htrim : jsTrim [digitChar a, digitChar b, ':', digitChar c, digitChar d, ':',
      digitChar e, digitChar f, sep, digitChar g, digitChar i, digitChar j] =
      [digitChar a, digitChar b, ':', digitChar c, digitChar d, ':',
      digitChar e, digitChar f, sep, digitChar g, digitChar i, digitChar j] := by
    apply jsTrim_eq_self
    intro x hx
    rcases hsep with rfl | rfl <;>
      fin_cases hx <;>
      first
        | rfl
        | exact isJsWs_digitChar ha | exact isJsWs_digitChar hb | exact isJsWs_digitChar hc
        | exact isJsWs_digitChar hd | exact isJsWs_digitChar he | exact isJsWs_digitChar hf
        | exact isJsWs_digitChar hg | exact isJsWs_digitChar hi | exact isJsWs_digitChar hj
  rcases hsep with rfl | rfl <;>
  · rw [timeToMs, if_neg (by simp)]
    simp only [htrim]
    rw [show jsEndsWith [digitChar a, digitChar b, ':', digitChar c, digitChar d, ':',
        digitChar e, digitChar f, _, digitChar g, digitChar i, digitChar j] ['m', 's'] = false by
      simp [jsEndsWith, List.isPrefixOf, s_beq_digitChar hj]]
    rw [show jsEndsWith [digitChar a, digitChar b, ':', digitChar c, digitChar d, ':',
        digitChar e, digitChar f, _, digitChar g, digitChar i, digitChar j] ['s'] = false by
      simp [jsEndsWith, List.isPrefixOf, s_beq_digitChar hj]]
    simp [lrcTimeMatch, fullTimeMatch, fullTimeWithHours, fullTimeNoHours,
      List.takeWhile_cons, List.dropWhile_cons, isDigit_digitChar ha, isDigit_digitChar hb,
      isDigit_digitChar hc, isDigit_digitChar hd, isDigit_digitChar he, isDigit_digitChar hf,
      isDigit_digitChar hg, isDigit_digitChar hi, isDigit_digitChar hj,
      digitsToNat_two hc hd, digitsToNat_two he hf, digitsToNat_two ha hb,
      digitsToNat_three hg hi hj]

/-- C1: encode/decode round trip for SRT and VTT timestamps.  For every
integer number of milliseconds below 24 hours, decoding the encoded SRT
string gives back the input, and likewise for VTT. -/
theorem claim1_srt_vtt_roundtrip (ms : Nat) (h : ms < 86400000) :
    timeToMs (msToSrt (some (ms : ℚ))) = some ((ms : ℚ)) ∧
    timeToMs (msToVtt (some (ms : ℚ))) = some ((ms : ℚ)) := by
  have b1 : ms / 3600000 < 100 := by omega
  have b2 : ms % 3600000 / 60000 < 100 := by omega
  have b3 : ms % 60000 / 1000 < 100 := by omega
  have b4 : ms % 1000 < 1000 := by omega
  have k1 : ms % 3600000 % 60000 = ms % 60000 := Nat.mod_mod_of_dvd ms (by norm_num)
  have k2 : ms % 60000 % 1000 = ms % 1000 := Nat.mod_mod_of_dvd ms (by norm_num)
  constructor
  · rw [msToSrt_natCast, padNat_two b1, padNat_two b2, padNat_two b3, padNat_three b4]
    simp only [List.cons_append, List.nil_append]
    rw [timeToMs_full_decode _ _ _ _ _ _ _ _ _ _
      (by omega) (by omega) (by omega) (by omega) (by omega) (by omega)
      (by omega) (by omega) (by omega) (Or.inr rfl)]
    congr 1
    rw [Nat.cast_inj]
    omega
  · rw [msToVtt_natCast, padNat_two b1, padNat_two b2, padNat_two b3, padNat_three b4]
    simp only [List.cons_append, List.nil_append]
    rw [timeToMs_full_decode _ _ _ _ _ _ _ _ _ _
      (by omega) (by omega) (by omega) (by omega) (by omega) (by omega)
      (by omega) (by omega) (by omega) (Or.inl rfl)]
    congr 1
    rw [Nat.cast_inj]
    omega

/-- Witness for C1 at a concrete input. -/
theorem claim1_srt_vtt_roundtrip_witness :
    3661001 < 86400000 ∧
    (timeToMs (msToSrt (some ((3661001 : ℕ) : ℚ))) = some (((3661001 : ℕ) : ℚ)) ∧
     timeToMs (msToVtt (some ((3661001 : ℕ) : ℚ))) = some (((3661001 : ℕ) : ℚ))) :=
  ⟨by norm_num, claim1_srt_vtt_roundtrip 3661001 (by norm_num)⟩

/-- C9: the calendar-based and the division-based SRT encoders agree on every
integer millisecond count below 24 hours. -/
theorem claim9_srt_encoders_agree (ms : Nat) (h : ms < 86400000) :
    msToSrtDate (some (ms : ℚ)) = msToSrt (some (ms : ℚ)) := by
  rw [msToSrt_natCast, msToSrtDate_natCast]
  have e1 : ms / 60000 % 60 = ms % 3600000 / 60000 := by
    have := Nat.mod_mul_right_div_self ms 60000 60
    norm_num at this
    omega
  have e2 : ms / 1000 % 60 = ms % 60000 / 1000 := by
    have := Nat.mod_mul_right_div_self ms 1000 60
    norm_num at this
    omega
  rw [e1, e2]

/-- Witness for C9 at a concrete input. -/
theorem claim9_srt_encoders_agree_witness :
    86399999 < 86400000 ∧
    msToSrtDate (some ((86399999 : ℕ) : ℚ)) = msToSrt (some ((86399999 : ℕ) : ℚ)) :=
  ⟨by norm_num, claim9_srt_encoders_agree 86399999 (by norm_num)⟩

/-! Symbolic evaluation of the decoder on LRC-shaped strings with one, two and
three fraction digits. -/

theorem timeToMs_lrc1_decode (a b c d e : Nat)
    (ha : a < 10) (hb : b < 10) (hc : c < 10) (hd : d < 10) (he : e < 10) :
    timeToMs [digitChar a, digitChar b, ':', digitChar c, digitChar d, '.', digitChar e] =
    some (((a * 10 + b) * 60000 + (c * 10 + d) * 1000 + e * 100 : Nat) : ℚ) := by
  have htrim : jsTrim [digitChar a, digitChar b, ':', digitChar c, digitChar d, '.',
      digitChar e] =
      [digitChar a, digitChar b, ':', digitChar c, digitChar d, '.', digitChar e] := by
    apply jsTrim_eq_self
    intro x hx
    fin_cases hx <;>
      first
        | rfl
        | exact isJsWs_digitChar ha | exact isJsWs_digitChar hb | exact isJsWs_digitChar hc
        | exact isJsWs_digitChar hd | exact isJsWs_digitChar he
  rw [timeToMs, if_neg (by simp)]
  simp only [htrim]
  rw [show jsEndsWith [digitChar a, digitChar b, ':', digitChar c, digitChar d, '.',
      digitChar e] ['m', 's'] = false by
    simp [jsEndsWith, List.isPrefixOf, s_beq_digitChar he]]
  rw [show jsEndsWith [digitChar a, digitChar b, ':', digitChar c, digitChar d, '.',
      digitChar e] ['s'] = false by
    simp [jsEndsWith, List.isPrefixOf, s_beq_digitChar he]]
  simp [lrcTimeMatch, List.takeWhile_cons, List.dropWhile_cons,
    isDigit_digitChar ha, isDigit_digitChar hb, isDigit_digitChar hc, isDigit_digitChar hd,
    isDigit_digitChar he,
    digitsToNat_two ha hb, digitsToNat_two hc hd, digitsToNat_one he]

theorem timeToMs_lrc2_decode (a b c d e f : Nat)
    (ha : a < 10) (hb : b < 10) (hc : c < 10) (hd : d < 10) (he : e < 10) (hf : f < 10) :
    timeToMs [digitChar a, digitChar b, ':', digitChar c, digitChar d, '.',
      digitChar e, digitChar f] =
    some (((a * 10 + b) * 60000 + (c * 10 + d) * 1000 + (e * 10 + f) * 10 : Nat) : ℚ) := by
  have htrim : jsTrim [digitChar a, digitChar b, ':', digitChar c, digitChar d, '.',
      digitChar e, digitChar f] =
      [digitChar a, digitChar b, ':', digitChar c, digitChar d, '.', digitChar e, digitChar f] := by
    apply jsTrim_eq_self
    intro x hx
    fin_cases hx <;>
      first
        | rfl
        | exact isJsWs_digitChar ha | exact isJsWs_digitChar hb | exact isJsWs_digitChar hc
        | exact isJsWs_digitChar hd | exact isJsWs_digitChar he | exact isJsWs_digitChar hf
  rw [timeToMs, if_neg (by simp)]
  simp only [htrim]
  rw [show jsEndsWith [digitChar a, digitChar b, ':', digitChar c, digitChar d, '.',
      digitChar e, digitChar f] ['m', 's'] = false by
    simp [jsEndsWith, List.isPrefixOf, s_beq_digitChar hf]]
  rw [show jsEndsWith [digitChar a, digitChar b, ':', digitChar c, digitChar d, '.',
      digitChar e, digitChar f] ['s'] = false by
    simp [jsEndsWith, List.isPrefixOf, s_beq_digitChar hf]]
  simp [lrcTimeMatch, List.takeWhile_cons, List.dropWhile_cons,
    isDigit_digitChar ha, isDigit_digitChar hb, isDigit_digitChar hc, isDigit_digitChar hd,
    isDigit_digitChar he, isDigit_digitChar hf,
    digitsToNat_two ha hb, digitsToNat_two hc hd, digitsToNat_two he hf]

theorem timeToMs_lrc3_decode (a b c d e f g : Nat)
    (ha : a < 10) (hb : b < 10) (hc : c < 10) (hd : d < 10) (he : e < 10) (hf : f < 10)
    (hg : g < 10) :
    timeToMs [digitChar a, digitChar b, ':', digitChar c, digitChar d, '.',
      digitChar e, digitChar f, digitChar g] =
    some (((a * 10 + b) * 60000 + (c * 10 + d) * 1000 + (e * 100 + f * 10 + g) : Nat) : ℚ) := by
  have htrim : jsTrim [digitChar a, digitChar b, ':', digitChar c, digitChar d, '.',
      digitChar e, digitChar f, digitChar g] =
      [digitChar a, digitChar b, ':', digitChar c, digitChar d, '.',
      digitChar e, digitChar f, digitChar g] := by
    apply jsTrim_eq_self
    intro x hx
    fin_cases hx <;>
      first
        | rfl
        | exact isJsWs_digitChar ha | exact isJsWs_digitChar hb | exact isJsWs_digitChar hc
        | exact isJsWs_digitChar hd | exact isJsWs_digitChar he | exact isJsWs_digitChar hf
        | exact isJsWs_digitChar hg
  rw [timeToMs, if_neg (by simp)]
  simp only [htrim]
  rw [show jsEndsWith [digitChar a, digitChar b, ':', digitChar c, digitChar d, '.',
      digitChar e, digitChar f, digitChar g] ['m', 's'] = false by
    simp [jsEndsWith, List.isPrefixOf, s_beq_digitChar hg]]
  rw [show jsEndsWith [digitChar a, digitChar b, ':', digitChar c, digitChar d, '.',
      digitChar e, digitChar f, digitChar g] ['s'] = false by
    simp [jsEndsWith, List.isPrefixOf, s_beq_digitChar hg]]
  simp [lrcTimeMatch, List.takeWhile_cons, List.dropWhile_cons,
    isDigit_digitChar ha, isDigit_digitChar hb, isDigit_digitChar hc, isDigit_digitChar hd,
    isDigit_digitChar he, isDigit_digitChar hf, isDigit_digitChar hg,
    digitsToNat_two ha hb, digitsToNat_two hc hd, digitsToNat_three he hf hg]

/-- C2, counterexample to the claimed range: at `ms = 5999995` the rounded
value reaches sixty minutes, `msToLrc` prints a three-digit minute field, and
`timeToMs` decodes the result to `0`, which is neither of the two candidate
roundings of the input to a multiple of ten. -/
theorem claim2_lrc_roundtrip_counterexample :
    timeToMs (msToLrc (some ((5999995 : ℕ) : ℚ))) = some 0 ∧
    (0 : ℚ) ≠ ((5999990 : ℕ) : ℚ) ∧ (0 : ℚ) ≠ ((6000000 : ℕ) : ℚ) := by
  refine ⟨?_, by norm_num, by norm_num⟩
  rw [msToLrc_natCast]
  decide

/-- C2, amended: for every integer `ms` with `ms < 5999995` (so that the
half-up rounding to centiseconds stays below sixty minutes), decoding the
encoded LRC string returns the input rounded to the nearest multiple of ten
milliseconds, written `(ms + 5) / 10 * 10`. -/
theorem claim2_lrc_roundtrip_amended (ms : Nat) (h : ms < 5999995) :
    timeToMs (msToLrc (some (ms : ℚ))) = some ((((ms + 5) / 10 * 10 : ℕ) : ℚ)) := by
  have b1 : (ms + 5) / 10 * 10 / 60000 < 100 := by omega
  have b2 : (ms + 5) / 10 * 10 % 60000 / 1000 < 100 := by omega
  have b3 : (ms + 5) / 10 * 10 % 1000 / 10 < 100 := by omega
  rw [msToLrc_natCast, padNat_two b1, padNat_two b2, padNat_two b3]
  simp only [List.cons_append, List.nil_append]
  rw [timeToMs_lrc2_decode _ _ _ _ _ _
    (by omega) (by omega) (by omega) (by omega) (by omega) (by omega)]
  congr 1
  rw [Nat.cast_inj]
  have k1 : (ms + 5) / 10 * 10 % 60000 % 1000 = (ms + 5) / 10 * 10 % 1000 :=
    Nat.mod_mod_of_dvd _ (by norm_num)
  omega

/-- Witness for the amended C2 at a concrete input. -/
theorem claim2_lrc_roundtrip_amended_witness :
    83456 < 5999995 ∧
    timeToMs (msToLrc (some ((83456 : ℕ) : ℚ))) = some ((((83456 + 5) / 10 * 10 : ℕ) : ℚ)) :=
  ⟨by norm_num, claim2_lrc_roundtrip_amended 83456 (by norm_num)⟩

/-! Helpers for the totality analysis of the decoder. -/

theorem jsEndsWith_s_of_ms {l : List Char} (h : jsEndsWith l ['m', 's'] = true) :
    jsEndsWith l ['s'] = true := by
  rw [jsEndsWith] at h ⊢
  cases hr : l.reverse with
  | nil => rw [hr] at h; simp [List.isPrefixOf] at h
  | cons c r =>
    rw [hr] at h
    simp [List.isPrefixOf] at h ⊢
    exact h.1

theorem isJsWs_eq_false_of_isDigit {c : Char} (h : c.isDigit = true) : isJsWs c = false := by
  have e1 : c ≠ ' ' := by rintro rfl; exact absurd h (by decide)
  have e2 : c ≠ '\t' := by rintro rfl; exact absurd h (by decide)
  have e3 : c ≠ '\n' := by rintro rfl; exact absurd h (by decide)
  have e4 : c ≠ '\r' := by rintro rfl; exact absurd h (by decide)
  have e5 : c ≠ '\x0b' := by rintro rfl; exact absurd h (by decide)
  have e6 : c ≠ '\x0c' := by rintro rfl; exact absurd h (by decide)
  simp [isJsWs, e1, e2, e3, e4, e5, e6]

theorem head_digit_of_takeWhile_ne {l : List Char}
    (h : l.takeWhile Char.isDigit ≠ []) :
    ∃ c r, l = c :: r ∧ c.isDigit = true := by
  cases l with
  | nil => simp at h
  | cons c r =>
    refine ⟨c, r, rfl, ?_⟩
    by_contra hc
    rw [List.takeWhile_cons, if_neg (by simpa using hc)] at h
    exact h rfl

theorem parseFloat_isSome_of_bare {l : List Char} (h : bareNumericTest l = true) :
    (parseFloat l).isSome = true := by
  have hne : l.takeWhile Char.isDigit ≠ [] := by
    rw [bareNumericTest] at h
    intro e
    simp [e] at h
  obtain ⟨c, r, rfl, hc⟩ := head_digit_of_takeWhile_ne hne
  rw [parseFloat, List.dropWhile_cons, isJsWs_eq_false_of_isDigit hc]
  have hcm : c ≠ '-' := by rintro rfl; exact absurd hc (by decide)
  have hcp : c ≠ '+' := by rintro rfl; exact absurd hc (by decide)
  have hip : (c :: r).takeWhile Char.isDigit ≠ [] := hne
  simp only [Bool.false_eq_true, if_false, if_neg hcm, if_neg hcp, parseFloatMantissa]
  by_cases hh : ((c :: r).dropWhile Char.isDigit).head? = some '.'
  · rw [if_pos hh, if_neg (by simp [hip])]
    rfl
  · rw [if_neg hh, if_neg hip]
    rfl

/-- C3, counterexample: the input `abcms` reaches the millisecond-suffix
branch, whose `parseFloat` of a non-numeric prefix yields NaN, so `timeToMs`
returns NaN rather than a well-defined number. -/
theorem claim3_decoder_total_counterexample :
    timeToMs ['a', 'b', 'c', 'm', 's'] = none := by decide

/-- C3, amended: `timeToMs` never throws; on every input whose trimmed form
does not end in `s` it returns a well-defined finite number, and on every
input matching none of the decode rules it returns 0.  (The unamended claim
fails only on `s`- or `ms`-suffixed inputs whose numeric prefix fails to
parse, which produce NaN.) -/
theorem claim3_decoder_total_amended :
    (∀ l : List Char, jsEndsWith (jsTrim l) ['s'] = false → (timeToMs l).isSome = true) ∧
    (∀ l : List Char,
      jsEndsWith (jsTrim l) ['m', 's'] = false →
      jsEndsWith (jsTrim l) ['s'] = false →
      lrcTimeMatch (jsTrim l) = none →
      fullTimeMatch (jsTrim l) = none →
      bareNumericTest (jsTrim l) = false →
      timeToMs l = some 0) := by
  constructor
  · intro l hs
    by_cases hl : l = []
    · subst hl; rfl
    · have hms : jsEndsWith (jsTrim l) ['m', 's'] = false := by
        cases hx : jsEndsWith (jsTrim l) ['m', 's'] with
        | false => rfl
        | true => exact absurd (jsEndsWith_s_of_ms hx) (by simp [hs])
      rw [timeToMs, if_neg hl]
      simp only [hms, hs, Bool.false_eq_true, if_false]
      cases hlrc : lrcTimeMatch (jsTrim l) with
      | some g =>
        obtain ⟨mg, sg, fg⟩ := g
        simp
      | none =>
        simp only []
        cases hfull : fullTimeMatch (jsTrim l) with
        | some g =>
          obtain ⟨hg, mg, sg, fg⟩ := g
          simp
        | none =>
          by_cases hb : bareNumericTest (jsTrim l) = true
          · simp only [hb, if_true]
            obtain ⟨q, hq⟩ := Option.isSome_iff_exists.mp (parseFloat_isSome_of_bare hb)
            simp [hq]
          · simp [hb]
  · intro l h1 h2 h3 h4 h5
    by_cases hl : l = []
    · subst hl; rfl
    · rw [timeToMs, if_neg hl]
      simp only [h1, h2, h3, h4, h5, Bool.false_eq_true, if_false]

/-- Witness for the amended C3 at a concrete input. -/
theorem claim3_decoder_total_amended_witness :
    (timeToMs ['h', 'i']).isSome = true ∧ timeToMs ['h', 'i'] = some 0 :=
  ⟨claim3_decoder_total_amended.1 ['h', 'i'] (by decide),
   claim3_decoder_total_amended.2 ['h', 'i'] (by decide) (by decide) (by decide) (by decide)
     (by decide)⟩

/-- C4: the suffix rules of `timeToMs` (an `ms` suffix parses the prefix
unscaled, an `s` suffix scales by 1000) and the fractional-digit scaling of
the colon format (one digit scales by 100, two by 10, three by 1), together
with the three concrete values named by the specification. -/
theorem claim4_suffix_and_fraction_rules :
    (∀ l : List Char, jsEndsWith (jsTrim l) ['m', 's'] = true →
      timeToMs l = parseFloat ((jsTrim l).take ((jsTrim l).length - 2))) ∧
    (∀ l : List Char, jsEndsWith (jsTrim l) ['m', 's'] = false →
      jsEndsWith (jsTrim l) ['s'] = true →
      timeToMs l = (parseFloat ((jsTrim l).take ((jsTrim l).length - 1))).map
        (fun q => q * 1000)) ∧
    (∀ m s f : Nat, m < 100 → s < 100 → f < 10 →
      timeToMs (padNat 2 m ++ ':' :: padNat 2 s ++ ['.', digitChar f]) =
        some ((m * 60000 + s * 1000 + f * 100 : Nat) : ℚ)) ∧
    (∀ m s f : Nat, m < 100 → s < 100 → f < 100 →
      timeToMs (padNat 2 m ++ ':' :: padNat 2 s ++ '.' :: padNat 2 f) =
        some ((m * 60000 + s * 1000 + f * 10 : Nat) : ℚ)) ∧
    (∀ m s f : Nat, m < 100 → s < 100 → f < 1000 →
      timeToMs (padNat 2 m ++ ':' :: padNat 2 s ++ '.' :: padNat 3 f) =
        some ((m * 60000 + s * 1000 + f : Nat) : ℚ)) ∧
    timeToMs ['5', '0', '0', 'm', 's'] = some 500 ∧
    timeToMs ['1', '0', '.', '5', 's'] = some 10500 ∧
    timeToMs ['0', '1', ':', '2', '3', '.', '4', '5'] = some 83450 := by
  refine ⟨?_, ?_, ?_, ?_, ?_, ?_, ?_, by decide⟩
  · intro l h
    have hl : l ≠ [] := by
      intro e; subst e; simp [jsTrim, jsEndsWith, List.isPrefixOf] at h
    rw [timeToMs, if_neg hl]
    simp only [h, if_pos]
  · intro l h1 h2
    have hl : l ≠ [] := by
      intro e; subst e; simp [jsTrim, jsEndsWith, List.isPrefixOf] at h2
    rw [timeToMs, if_neg hl]
    simp only [h1, h2, Bool.false_eq_true, if_false, if_pos]
  · intro m s f hm hs hf
    rw [padNat_two hm, padNat_two hs]
    simp only [List.cons_append, List.nil_append]
    rw [timeToMs_lrc1_decode (m / 10) (m % 10) (s / 10) (s % 10) f
      (by omega) (by omega) (by omega) (by omega) hf]
    rw [Option.some_inj, Nat.cast_inj]
    omega
  · intro m s f hm hs hf
    rw [padNat_two hm, padNat_two hs, padNat_two hf]
    simp only [List.cons_append, List.nil_append]
    rw [timeToMs_lrc2_decode (m / 10) (m % 10) (s / 10) (s % 10) (f / 10) (f % 10)
      (by omega) (by omega) (by omega) (by omega) (by omega) (by omega)]
    rw [Option.some_inj, Nat.cast_inj]
    omega
  · intro m s f hm hs hf
    rw [padNat_two hm, padNat_two hs, padNat_three hf]
    simp only [List.cons_append, List.nil_append]
    rw [timeToMs_lrc3_decode (m / 10) (m % 10) (s / 10) (s % 10) (f / 100) (f / 10 % 10) (f % 10)
      (by omega) (by omega) (by omega) (by omega) (by omega) (by omega) (by omega)]
    rw [Option.some_inj, Nat.cast_inj]
    omega
  · have e : timeToMs ['5', '0', '0', 'm', 's'] = some (((500 : ℕ) : ℚ) * 1) := rfl
    rw [e]; norm_num
  · have e : timeToMs ['1', '0', '.', '5', 's'] =
        some (((((10 : ℕ) : ℚ) + ((5 : ℕ) : ℚ) / (10 : ℚ) ^ (1 : ℕ)) * 1) * 1000) := rfl
    rw [e]; norm_num

/-! Data model (types.ts): words, cues, metadata and parse results.  Optional
numeric fields are `Option JsNum`: the outer layer is presence of the field,
the inner layer is the JS number itself (NaN or finite). -/

/-- Model of the `Word` record of types.ts. -/
structure Word where
  id : List Char
  text : List Char
  start : Option JsNum := none
  endMs : Option JsNum := none
deriving DecidableEq

/-- Model of the `Cue` record of types.ts (the `end` field is `endMs` since
`end` is reserved in Lean). -/
structure Cue where
  id : List Char
  start : JsNum
  endMs : JsNum
  text : List Char
  words : Option (List Word) := none
deriving DecidableEq

/-- Model of the `Metadata` record of types.ts (`by` is `byTag`). -/
structure Metadata where
  title : Option (List Char) := none
  artist : Option (List Char) := none
  album : Option (List Char) := none
  byTag : Option (List Char) := none
deriving DecidableEq

/-- Model of the `ParseResult` record of subtitleParser.ts. -/
structure ParseResult where
  cues : List Cue
  metadata : Metadata
deriving DecidableEq

/-! The LRC parser (`parseLRC` in subtitleParser.ts). -/

/-- Loop of `splitLines`, accumulating the current line in reverse. -/
def splitLinesGo : List Char → List Char → List (List Char)
  | [], cur => [cur.reverse]
  | '\r' :: '\n' :: r, cur => cur.reverse :: splitLinesGo r []
  | '\n' :: r, cur => cur.reverse :: splitLinesGo r []
  | c :: r, cur => splitLinesGo r (c :: cur)

/-- Model of `content.split(/\r?\n/)`. -/
def splitLines (l : List Char) : List (List Char) := splitLinesGo l []

/-- Attempt to match `\[(\d{2}:\d{2}(?:\.\d{2,3})?)\]` at the head of the
list, returning the timestamp capture and the remainder (which the enclosing
`(.*)` capture takes to the end of the line). -/
def lrcBracketAt : List Char → Option (List Char × List Char)
  | '[' :: a :: b :: ':' :: c :: d :: rest =>
    if a.isDigit && b.isDigit && c.isDigit && d.isDigit then
      match rest with
      | ']' :: r => some ([a, b, ':', c, d], r)
      | '.' :: r2 =>
        let fd := r2.takeWhile Char.isDigit
        if fd.length = 2 ∨ fd.length = 3 then
          match r2.dropWhile Char.isDigit with
          | ']' :: r4 => some ([a, b, ':', c, d, '.'] ++ fd, r4)
          | _ => none
        else none
      | _ => none
    else none
  | _ => none

/-- First match of the cue-line regex anywhere in the line, as
`line.match(regex)` finds it. -/
def lrcLineMatch : List Char → Option (List Char × List Char)
  | [] => none
  | c :: r =>
    match lrcBracketAt (c :: r) with
    | some m => some m
    | none => lrcLineMatch r

/-- Attempt to match the word-tag regex `<(\d{2}:\d{2}(?:\.\d{2,3})?)>` at the
head of the list, returning the timestamp capture and the remainder. -/
def lrcWordTagAt : List Char → Option (List Char × List Char)
  | '<' :: a :: b :: ':' :: c :: d :: rest =>
    if a.isDigit && b.isDigit && c.isDigit && d.isDigit then
      match rest with
      | '>' :: r => some ([a, b, ':', c, d], r)
      | '.' :: r2 =>
        let fd := r2.takeWhile Char.isDigit
        if fd.length = 2 ∨ fd.length = 3 then
          match r2.dropWhile Char.isDigit with
          | '>' :: r4 => some ([a, b, ':', c, d, '.'] ++ fd, r4)
          | _ => none
        else none
      | _ => none
    else none
  | _ => none

/-- Characters the lazy `(.*?)` of a metadata tag can take: anything except
the closing bracket and the line terminators `.` cannot match. -/
def isMetaCapChar (c : Char) : Bool := !(c = ']' || c = '\n' || c = '\r')

/-- Attempt to match a metadata tag such as `\[ti:(.*?)\]` at the head of the
list, returning the capture. -/
def metaTagAt (tag : List Char) (l : List Char) : Option (List Char) :=
  if jsStartsWith l ('[' :: tag ++ [':']) then
    let afterOpen := l.drop (tag.length + 2)
    match afterOpen.dropWhile isMetaCapChar with
    | ']' :: _ => some (afterOpen.takeWhile isMetaCapChar)
    | _ => none
  else none

/-- First match of a metadata tag anywhere in the content (fuel keeps the
scan structural; callers pass the content length). -/
def metaTagFind (tag : List Char) : Nat → List Char → Option (List Char)
  | 0, _ => none
  | fuel + 1, l =>
    match metaTagAt tag l with
    | some cap => some cap
    | none =>
      match l with
      | [] => none
      | _ :: r => metaTagFind tag fuel r

/-- Model of `rawText.replace(/<[^>]+>/g, '')` (fuel keeps the scan
structural; callers pass the text length). -/
def stripTags : Nat → List Char → List Char
  | 0, _ => []
  | fuel + 1, l =>
    match l with
    | [] => []
    | c :: r =>
      if c = '<' then
        match r.dropWhile (fun x => !(x = '>')) with
        | '>' :: rest =>
          if (r.takeWhile (fun x => !(x = '>'))).isEmpty then '<' :: stripTags fuel r
          else stripTags fuel rest
        | _ => '<' :: stripTags fuel r
      else c :: stripTags fuel r

/-- The `exec` loop collecting enhanced-LRC words: successive non-overlapping
matches of the word-tag regex, each taking the following `[^<]*` capture as
its text; `pos` tracks the match index used in the word id. -/
def lrcWordsGo (lineIdx : Nat) : Nat → List Char → Nat → List Word
  | 0, _, _ => []
  | fuel + 1, l, pos =>
    match l with
    | [] => []
    | c :: r =>
      match lrcWordTagAt (c :: r) with
      | some (ts, afterGt) =>
        let wtext := afterGt.takeWhile (fun x => !(x = '<'))
        let rest := afterGt.dropWhile (fun x => !(x = '<'))
        { id := ['w', '-'] ++ natToDigits lineIdx ++ '-' :: natToDigits pos,
          start := some (timeToMs ts),
          text := jsTrim wtext } ::
          lrcWordsGo lineIdx fuel rest (pos + ((c :: r).length - rest.length))
      | none => lrcWordsGo lineIdx fuel r (pos + 1)

/-- One line of `parseLRC`: a cue when the line matches the bracketed
timestamp regex, nothing otherwise.  The pushed cue's end is a 3000 ms
placeholder, later overwritten for every non-final cue. -/
def lrcLineToCue (idx : Nat) (line : List Char) : Option Cue :=
  match lrcLineMatch line with
  | none => none
  | some (ts, rawText) =>
    let start := timeToMs ts
    if rawText.contains '<' && rawText.contains '>' then
      let words := lrcWordsGo idx rawText.length rawText 0
      some { id := ['l', 'r', 'c', '-'] ++ natToDigits idx,
             start := start,
             endMs := jsAdd start (some 3000),
             text := jsTrim (stripTags rawText.length rawText),
             words := if words.length > 0 then some words else none }
    else
      some { id := ['l', 'r', 'c', '-'] ++ natToDigits idx,
             start := start,
             endMs := jsAdd start (some 3000),
             text := jsTrim rawText,
             words := none }

/-- The end-inference pass of `parseLRC`: each non-final cue's end becomes the
next cue's start. -/
def inferEnds : List Cue → List Cue
  | [] => []
  | [c] => [c]
  | c :: c2 :: rest => { c with endMs := c2.start } :: inferEnds (c2 :: rest)

/-- Model of `parseLRC`. -/
def parseLRC (content : List Char) : ParseResult :=
  let lines := splitLines content
  let baseCues := lines.enum.filterMap (fun p => lrcLineToCue p.1 p.2)
  { cues := inferEnds baseCues,
    metadata :=
      { title := (metaTagFind ['t', 'i'] content.length content).map jsTrim,
        artist := (metaTagFind ['a', 'r'] content.length content).map jsTrim,
        album := (metaTagFind ['a', 'l'] content.length content).map jsTrim,
        byTag := (metaTagFind ['b', 'y'] content.length content).map jsTrim } }

/-! The format detector (`detectFormat` in subtitleParser.ts). -/

/-- Closed tag set of supported formats (the `SubtitleFormat` enum of
types.ts). -/
inductive SubtitleFormat where
  | lrc
  | lrcEnhanced
  | srt
  | vtt
  | vttKaraoke
  | ttml
  | ttmlKaraoke
  | txt
  | json
deriving DecidableEq

/-- Model of `String.prototype.includes`. -/
def containsSub : List Char → List Char → Bool
  | [], sub => sub.isEmpty
  | c :: rest, sub => List.isPrefixOf sub (c :: rest) || containsSub rest sub

/-- The TTML namespace URI sniffed for by the detector. -/
def ttmlNamespaceUri : List Char := ("http://www.w3.org/ns/ttml").data

/-- Model of `/^\[\d{2}:\d{2}\.\d{2}\]/.test(content)`: a leading bracketed
`MM:SS.cc` timestamp on the untrimmed content. -/
def lrcLeadTimestampTest : List Char → Bool
  | '[' :: a :: b :: ':' :: c :: d :: '.' :: e :: f :: ']' :: _ =>
    a.isDigit && b.isDigit && c.isDigit && d.isDigit && e.isDigit && f.isDigit
  | _ => false

/-- Model of `detectFormat`: extension checks in order, then content
sniffing. -/
def detectFormat (filename content : List Char) : SubtitleFormat :=
  if jsEndsWith filename ((".lrc").data) then .lrc
  else if jsEndsWith filename ((".srt").data) then .srt
  else if jsEndsWith filename ((".vtt").data) then .vtt
  else if jsEndsWith filename ((".xml").data) || jsEndsWith filename ((".ttml").data) then .ttml
  else if jsEndsWith filename ((".json").data) then .json
  else if jsEndsWith filename ((".txt").data) then .txt
  else
    let trimmed := jsTrim content
    if jsStartsWith trimmed ['\x7b'] || jsStartsWith trimmed ['['] then .json
    else if jsStartsWith trimmed (("WEBVTT").data) then .vtt
    else if containsSub content ttmlNamespaceUri then .ttml
    else if lrcLeadTimestampTest content then .lrc
    else .srt

/-- Modelled from the spec's description of content sniffing, for comparison
with the detector: leading brace or bracket means JSON, leading WEBVTT means
VTT, a TTML namespace substring means TTML, a leading bracketed `MM:SS.cc`
timestamp means LRC, otherwise SRT. -/
def sniffSpec (content : List Char) : SubtitleFormat :=
  let trimmed := jsTrim content
  if jsStartsWith trimmed ['\x7b'] || jsStartsWith trimmed ['['] then .json
  else if jsStartsWith trimmed (("WEBVTT").data) then .vtt
  else if containsSub content ttmlNamespaceUri then .ttml
  else if lrcLeadTimestampTest content then .lrc
  else .srt

theorem jsEndsWith_rev (fn suf : List Char) (h : jsEndsWith fn suf = true) :
    ∃ t, fn.reverse = suf.reverse ++ t := by
  rw [jsEndsWith] at h
  obtain ⟨t, ht⟩ := (List.isPrefixOf_iff_prefix.mp h)
  exact ⟨t, ht.symm⟩

/-- C6: extension matches take precedence in `detectFormat`, and with no
matching extension the detector sniffs content exactly in the order the
specification describes. -/
theorem claim6_detectFormat_priority :
    (∀ fn c, jsEndsWith fn ((".lrc").data) = true → detectFormat fn c = .lrc) ∧
    (∀ fn c, jsEndsWith fn ((".srt").data) = true → detectFormat fn c = .srt) ∧
    (∀ fn c, jsEndsWith fn ((".vtt").data) = true → detectFormat fn c = .vtt) ∧
    (∀ fn c, jsEndsWith fn ((".xml").data) = true ∨ jsEndsWith fn ((".ttml").data) = true →
      detectFormat fn c = .ttml) ∧
    (∀ fn c, jsEndsWith fn ((".json").data) = true → detectFormat fn c = .json) ∧
    (∀ fn c, jsEndsWith fn ((".txt").data) = true → detectFormat fn c = .txt) ∧
    (∀ fn c, jsEndsWith fn ((".lrc").data) = false → jsEndsWith fn ((".srt").data) = false →
      jsEndsWith fn ((".vtt").data) = false → jsEndsWith fn ((".xml").data) = false →
      jsEndsWith fn ((".ttml").data) = false → jsEndsWith fn ((".json").data) = false →
      jsEndsWith fn ((".txt").data) = false → detectFormat fn c = sniffSpec c) := by
  refine ⟨?_, ?_, ?_, ?_, ?_, ?_, ?_⟩
  · intro fn c h
    simp [detectFormat, h]
  · intro fn c h
    obtain ⟨t, ht⟩ := jsEndsWith_rev fn _ h
    have e1 : jsEndsWith fn ((".lrc").data) = false := by
      rw [jsEndsWith, ht]; rfl
    simp [detectFormat, e1, h]
  · intro fn c h
    obtain ⟨t, ht⟩ := jsEndsWith_rev fn _ h
    have e1 : jsEndsWith fn ((".lrc").data) = false := by rw [jsEndsWith, ht]; rfl
    have e2 : jsEndsWith fn ((".srt").data) = false := by rw [jsEndsWith, ht]; rfl
    simp [detectFormat, e1, e2, h]
  · intro fn c h
    rcases h with h | h <;>
    · obtain ⟨t, ht⟩ := jsEndsWith_rev fn _ h
      have e1 : jsEndsWith fn ((".lrc").data) = false := by rw [jsEndsWith, ht]; rfl
      have e2 : jsEndsWith fn ((".srt").data) = false := by rw [jsEndsWith, ht]; rfl
      have e3 : jsEndsWith fn ((".vtt").data) = false := by rw [jsEndsWith, ht]; rfl
      simp [detectFormat, e1, e2, e3, h]
  · intro fn c h
    obtain ⟨t, ht⟩ := jsEndsWith_rev fn _ h
    have e1 : jsEndsWith fn ((".lrc").data) = false := by rw [jsEndsWith, ht]; rfl
    have e2 : jsEndsWith fn ((".srt").data) = false := by rw [jsEndsWith, ht]; rfl
    have e3 : jsEndsWith fn ((".vtt").data) = false := by rw [jsEndsWith, ht]; rfl
    have e4 : jsEndsWith fn ((".xml").data) = false := by rw [jsEndsWith, ht]; rfl
    have e5 : jsEndsWith fn ((".ttml").data) = false := by rw [jsEndsWith, ht]; rfl
    simp [detectFormat, e1, e2, e3, e4, e5, h]
  · intro fn c h
    obtain ⟨t, ht⟩ := jsEndsWith_rev fn _ h
    have e1 : jsEndsWith fn ((".lrc").data) = false := by rw [jsEndsWith, ht]; rfl
    have e2 : jsEndsWith fn ((".srt").data) = false := by rw [jsEndsWith, ht]; rfl
    have e3 : jsEndsWith fn ((".vtt").data) = false := by rw [jsEndsWith, ht]; rfl
    have e4 : jsEndsWith fn ((".xml").data) = false := by rw [jsEndsWith, ht]; rfl
    have e5 : jsEndsWith fn ((".ttml").data) = false := by rw [jsEndsWith, ht]; rfl
    have e6 : jsEndsWith fn ((".json").data) = false := by rw [jsEndsWith, ht]; rfl
    simp [detectFormat, e1, e2, e3, e4, e5, e6, h]
  · intro fn c h1 h2 h3 h4 h5 h6 h7
    simp [detectFormat, sniffSpec, h1, h2, h3, h4, h5, h6, h7]

/-- Witness for C6 at concrete inputs. -/
theorem claim6_detectFormat_priority_witness :
    detectFormat (("song.srt").data) (("WEBVTT").data) = SubtitleFormat.srt ∧
    detectFormat [] (("WEBVTT x").data) = sniffSpec (("WEBVTT x").data) :=
  ⟨claim6_detectFormat_priority.2.1 (("song.srt").data) (("WEBVTT").data) (by decide),
   claim6_detectFormat_priority.2.2.2.2.2.2 [] (("WEBVTT x").data) (by decide) (by decide)
     (by decide) (by decide) (by decide) (by decide) (by decide)⟩

/-! TTML cue timing (`parseTTML` in subtitleParser.ts).  The document walk is
performed by the external DOMParser; the per-element timing logic below is the
translation of the three lines computing `startMs`/`endMs` from the `begin`,
`end` and `dur` attributes of one `<p>` element (`getAttribute` returns
`none` for an absent attribute). -/

/-- JS truthiness of a nullable string: `null` and the empty string are
falsy. -/
def jsTruthyStr : Option (List Char) → Bool
  | some (_ :: _) => true
  | _ => false

/-- Timing of one TTML `<p>` element: `startMs = timeToMs(begin || "0")`,
`endMs = end ? timeToMs(end) : startMs + 2000`, then
`if (dur) endMs = startMs + timeToMs(dur)`. -/
def ttmlCueTiming (begin endA dur : Option (List Char)) : JsNum × JsNum :=
  let startMs := timeToMs (match begin with | some (c :: r) => c :: r | _ => ['0'])
  let endMs0 := if jsTruthyStr endA then timeToMs (endA.getD []) else jsAdd startMs (some 2000)
  let endMs := if jsTruthyStr dur then jsAdd startMs (timeToMs (dur.getD [])) else endMs0
  (startMs, endMs)

/-- C8: TTML cue timing defaults.  Start is the decoded `begin` attribute, or
0 when it is absent; end is start plus the decoded `dur` when `dur` is
present, else the decoded `end` when present, else start plus 2000 ms. -/
theorem claim8_ttml_timing :
    (∀ b e d : Option (List Char), jsTruthyStr b = false →
      (ttmlCueTiming b e d).1 = some 0) ∧
    (∀ b e d : Option (List Char), jsTruthyStr b = true →
      (ttmlCueTiming b e d).1 = timeToMs (b.getD [])) ∧
    (∀ b e d : Option (List Char), jsTruthyStr d = true →
      (ttmlCueTiming b e d).2 = jsAdd (ttmlCueTiming b e d).1 (timeToMs (d.getD []))) ∧
    (∀ b e d : Option (List Char), jsTruthyStr d = false → jsTruthyStr e = true →
      (ttmlCueTiming b e d).2 = timeToMs (e.getD [])) ∧
    (∀ b e d : Option (List Char), jsTruthyStr d = false → jsTruthyStr e = false →
      (ttmlCueTiming b e d).2 = jsAdd (ttmlCueTiming b e d).1 (some 2000)) := by
  have hzero : timeToMs ['0'] = some 0 := by
    have e : timeToMs ['0'] = some ((((0 : ℕ) : ℚ) * 1) * 1000) := rfl
    rw [e]; norm_num
  refine ⟨?_, ?_, ?_, ?_, ?_⟩
  · intro b e d hb
    match b with
    | none => simpa [ttmlCueTiming] using hzero
    | some [] => simpa [ttmlCueTiming] using hzero
    | some (c :: r) => simp [jsTruthyStr] at hb
  · intro b e d hb
    match b with
    | none => simp [jsTruthyStr] at hb
    | some [] => simp [jsTruthyStr] at hb
    | some (c :: r) => simp [ttmlCueTiming]
  · intro b e d hd
    simp [ttmlCueTiming, hd]
  · intro b e d hd he
    simp [ttmlCueTiming, hd, he]
  · intro b e d hd he
    simp [ttmlCueTiming, hd, he]

/-- Witness for C8 at concrete attribute values. -/
theorem claim8_ttml_timing_witness :
    (ttmlCueTiming none none none).1 = some 0 ∧
    (ttmlCueTiming (some (("1s").data)) none (some (("500ms").data))).2 =
      jsAdd (ttmlCueTiming (some (("1s").data)) none (some (("500ms").data))).1
        (timeToMs (("500ms").data)) :=
  ⟨claim8_ttml_timing.1 none none none (by decide),
   claim8_ttml_timing.2.2.1 (some (("1s").data)) none (some (("500ms").data)) (by decide)⟩

/-! Word-level fallbacks of the karaoke serializers (`stringifyLRC`,
`stringifyVTT`, `stringifyTTML` in subtitleParser.ts). -/

/-- JS `w.start || cue.start`: the word's own value when it is a truthy
number (present, finite or NaN, nonzero — NaN and 0 are falsy), else the
cue's. -/
def jsOrNum (a : Option JsNum) (b : JsNum) : JsNum :=
  match a with
  | some (some q) => if q = 0 then b else some q
  | _ => b

/-- The word marker of the enhanced-LRC serializer:
`<${msToLrc(w.start || cue.start)}>${w.text}`. -/
def lrcWordMarker (cue : Cue) (w : Word) : List Char :=
  '<' :: msToLrc (jsOrNum w.start cue.start) ++ '>' :: w.text

/-- The word token of the karaoke VTT serializer:
`<${msToVtt(w.start || cue.start)}>${w.text}`. -/
def vttWordToken (cue : Cue) (w : Word) : List Char :=
  '<' :: msToVtt (jsOrNum w.start cue.start) ++ '>' :: w.text

/-- The offsets of a karaoke TTML span:
`startOffset = Math.max(0, (w.start || cue.start) - cue.start)` and
`endOffset = Math.max(0, (w.end || ((w.start || cue.start) + 300)) - cue.start)`. -/
def ttmlSpanOffsets (cue : Cue) (w : Word) : JsNum × JsNum :=
  (jsMax (some 0) (jsSub (jsOrNum w.start cue.start) cue.start),
   jsMax (some 0)
     (jsSub (jsOrNum w.endMs (jsAdd (jsOrNum w.start cue.start) (some 300))) cue.start))

/-- The span element of the karaoke TTML serializer. -/
def ttmlSpanToken (cue : Cue) (w : Word) : List Char :=
  ("<span begin=\"").data ++ msToVtt (ttmlSpanOffsets cue w).1 ++
    ("\" end=\"").data ++ msToVtt (ttmlSpanOffsets cue w).2 ++
    ("\">").data ++ w.text ++ ("</span>").data

/-- C10: in the karaoke serializers a word whose start is absent or exactly 0
is serialized with the owning cue's start instead, and in TTML karaoke a word
end that is absent or 0 falls back to the effective word start plus 300 ms. -/
theorem claim10_karaoke_word_fallbacks :
    (∀ (cue : Cue) (w : Word), w.start = none ∨ w.start = some (some 0) →
      lrcWordMarker cue w = '<' :: msToLrc cue.start ++ '>' :: w.text) ∧
    (∀ (cue : Cue) (w : Word), w.start = none ∨ w.start = some (some 0) →
      vttWordToken cue w = '<' :: msToVtt cue.start ++ '>' :: w.text) ∧
    (∀ (cue : Cue) (w : Word), w.start = none ∨ w.start = some (some 0) →
      (ttmlSpanOffsets cue w).1 = jsMax (some 0) (jsSub cue.start cue.start)) ∧
    (∀ (cue : Cue) (w : Word), w.endMs = none ∨ w.endMs = some (some 0) →
      (ttmlSpanOffsets cue w).2 =
        jsMax (some 0) (jsSub (jsAdd (jsOrNum w.start cue.start) (some 300)) cue.start)) := by
  refine ⟨?_, ?_, ?_, ?_⟩
  · intro cue w h
    rcases h with h | h <;> simp [lrcWordMarker, jsOrNum, h]
  · intro cue w h
    rcases h with h | h <;> simp [vttWordToken, jsOrNum, h]
  · intro cue w h
    rcases h with h | h <;> simp [ttmlSpanOffsets, jsOrNum, h]
  · intro cue w h
    rcases h with h | h <;> simp [ttmlSpanOffsets, jsOrNum, h]

/-- Witness for C10 at a concrete cue and word. -/
theorem claim10_karaoke_word_fallbacks_witness :
    lrcWordMarker { id := [], start := some 5000, endMs := some 7000, text := ['h', 'i'] }
        { id := [], text := ['y', 'o'], start := some (some 0) } =
      '<' :: msToLrc (some 5000) ++ '>' :: ['y', 'o'] ∧
    (ttmlSpanOffsets { id := [], start := some 5000, endMs := some 7000, text := ['h', 'i'] }
        { id := [], text := ['y', 'o'], start := some (some 0) }).2 =
      jsMax (some 0) (jsSub (jsAdd (jsOrNum (some (some 0)) (some 5000)) (some 300))
        (some 5000)) :=
  ⟨claim10_karaoke_word_fallbacks.1 _ _ (Or.inr rfl),
   claim10_karaoke_word_fallbacks.2.2.2 _ _ (Or.inl rfl)⟩

/-! The JSON parser (`parseJSON` in subtitleParser.ts).  The builtin
`JSON.parse` is external; it is modelled by a standard RFC 8259
recursive-descent parser over the character list, with `none` standing for a
thrown SyntaxError.  Structural fuel keeps every loop kernel-reducible. -/

/-- JSON values. -/
inductive Json where
  | null
  | bool (b : Bool)
  | num (q : ℚ)
  | str (s : List Char)
  | arr (elems : List Json)
  | obj (fields : List (List Char × Json))

/-- Whitespace JSON.parse skips between tokens. -/
def jsonWsChar (c : Char) : Bool := c = ' ' || c = '\t' || c = '\n' || c = '\r'

/-- Skip inter-token whitespace. -/
def skipJsonWs (l : List Char) : List Char := l.dropWhile jsonWsChar

/-- Value of one hexadecimal digit. -/
def parseHexDigit (c : Char) : Option Nat :=
  if c.isDigit then some (digitVal c)
  else if 'a' ≤ c ∧ c ≤ 'f' then some (c.toNat - 87)
  else if 'A' ≤ c ∧ c ≤ 'F' then some (c.toNat - 55)
  else none

/-- Body of a JSON string after the opening quote, returning the content and
the remainder after the closing quote.  A `\u` escape outside the valid
`Char` range falls back to the zero character (lone surrogates are not
representable here and never occur in this development). -/
def parseJsonString : Nat → List Char → Option (List Char × List Char)
  | 0, _ => none
  | fuel + 1, l =>
    match l with
    | [] => none
    | '"' :: r => some ([], r)
    | '\\' :: e :: r =>
      match e with
      | '"' => (parseJsonString fuel r).map (fun p => ('"' :: p.1, p.2))
      | '\\' => (parseJsonString fuel r).map (fun p => ('\\' :: p.1, p.2))
      | '/' => (parseJsonString fuel r).map (fun p => ('/' :: p.1, p.2))
      | 'b' => (parseJsonString fuel r).map (fun p => ('\x08' :: p.1, p.2))
      | 'f' => (parseJsonString fuel r).map (fun p => ('\x0c' :: p.1, p.2))
      | 'n' => (parseJsonString fuel r).map (fun p => ('\n' :: p.1, p.2))
      | 'r' => (parseJsonString fuel r).map (fun p => ('\x0d' :: p.1, p.2))
      | 't' => (parseJsonString fuel r).map (fun p => ('\t' :: p.1, p.2))
      | 'u' =>
        match r with
        | h1 :: h2 :: h3 :: h4 :: r2 =>
          match parseHexDigit h1, parseHexDigit h2, parseHexDigit h3, parseHexDigit h4 with
          | some d1, some d2, some d3, some d4 =>
            (parseJsonString fuel r2).map
              (fun p => (Char.ofNat (d1 * 4096 + d2 * 256 + d3 * 16 + d4) :: p.1, p.2))
          | _, _, _, _ => none
        | _ => none
      | _ => none
    | c :: r =>
      if c.toNat < 32 then none
      else (parseJsonString fuel r).map (fun p => (c :: p.1, p.2))

/-- A JSON number literal: optional minus, integer part without leading
zeros, optional fraction, optional exponent. -/
def parseJsonNumber (l : List Char) : Option (ℚ × List Char) :=
  let neg := match l with | '-' :: _ => true | _ => false
  let l1 := match l with | '-' :: r => r | _ => l
  let ip := l1.takeWhile Char.isDigit
  let r2 := l1.dropWhile Char.isDigit
  if ip = [] then none
  else if ip.headD '0' = '0' ∧ ip.length ≠ 1 then none
  else
    let fp := if r2.headD ' ' = '.' then r2.tail.takeWhile Char.isDigit else []
    let r3 := if r2.headD ' ' = '.' then r2.tail.dropWhile Char.isDigit else r2
    if r2.headD ' ' = '.' ∧ fp = [] then none
    else
      let base : ℚ := decimalValue ip fp
      let hasExp := r3.headD ' ' = 'e' ∨ r3.headD ' ' = 'E'
      if hasExp then
        let r4 := r3.tail
        let esign := match r4 with | '-' :: _ => true | _ => false
        let r5 := match r4 with | '-' :: r => r | '+' :: r => r | r => r
        let ed := r5.takeWhile Char.isDigit
        if ed = [] then none
        else
          let scale : ℚ := if esign then 1 / (10 : ℚ) ^ digitsToNat ed else (10 : ℚ) ^ digitsToNat ed
          some ((if neg then -(base * scale) else base * scale), r5.dropWhile Char.isDigit)
      else some ((if neg then -base else base), r3)

mutual

/-- One JSON value, skipping leading whitespace. -/
def parseJsonValue : Nat → List Char → Option (Json × List Char)
  | 0, _ => none
  | fuel + 1, l =>
    match skipJsonWs l with
    | '\x7b' :: r =>
      match skipJsonWs r with
      | '\x7d' :: r2 => some (Json.obj [], r2)
      | r2 => (parseJsonMembers fuel r2).map (fun p => (Json.obj p.1, p.2))
    | '[' :: r =>
      match skipJsonWs r with
      | ']' :: r2 => some (Json.arr [], r2)
      | r2 => (parseJsonElems fuel r2).map (fun p => (Json.arr p.1, p.2))
    | '"' :: r => (parseJsonString (r.length + 1) r).map (fun p => (Json.str p.1, p.2))
    | 't' :: 'r' :: 'u' :: 'e' :: r => some (Json.bool true, r)
    | 'f' :: 'a' :: 'l' :: 's' :: 'e' :: r => some (Json.bool false, r)
    | 'n' :: 'u' :: 'l' :: 'l' :: r => some (Json.null, r)
    | r => (parseJsonNumber r).map (fun p => (Json.num p.1, p.2))

/-- The members of a nonempty JSON object, up to and including the closing
brace. -/
def parseJsonMembers : Nat → List Char → Option (List (List Char × Json) × List Char)
  | 0, _ => none
  | fuel + 1, l =>
    match skipJsonWs l with
    | '"' :: r =>
      match parseJsonString (r.length + 1) r with
      | none => none
      | some (key, r2) =>
        match skipJsonWs r2 with
        | ':' :: r3 =>
          match parseJsonValue fuel r3 with
          | none => none
          | some (v, r4) =>
            match skipJsonWs r4 with
            | ',' :: r5 => (parseJsonMembers fuel r5).map (fun p => ((key, v) :: p.1, p.2))
            | '\x7d' :: r5 => some ([(key, v)], r5)
            | _ => none
        | _ => none
    | _ => none

/-- The elements of a nonempty JSON array, up to and including the closing
bracket. -/
def parseJsonElems : Nat → List Char → Option (List Json × List Char)
  | 0, _ => none
  | fuel + 1, l =>
    match parseJsonValue fuel l with
    | none => none
    | some (v, r) =>
      match skipJsonWs r with
      | ',' :: r2 => (parseJsonElems fuel r2).map (fun p => (v :: p.1, p.2))
      | ']' :: r2 => some ([v], r2)
      | _ => none

end

/-- Model of the builtin `JSON.parse`: a full-input parse, rejecting trailing
garbage; `none` models a thrown SyntaxError. -/
def jsonParse (l : List Char) : Option Json :=
  match parseJsonValue (2 * l.length + 4) l with
  | none => none
  | some (v, rest) => if skipJsonWs rest = [] then some v else none

/-- Lookup of an object field; `JSON.parse` keeps the last occurrence of a
duplicated key, hence the reversed search. -/
def lookupField (fields : List (List Char × Json)) (k : List Char) : Option Json :=
  (fields.reverse.find? (fun p => p.1 == k)).map (fun p => p.2)

/-- Property access on a non-null value: a field of an object, `undefined`
(`none`) on everything else. -/
def jsProp (w : Json) (k : List Char) : Option Json :=
  match w with
  | Json.obj fs => lookupField fs k
  | _ => none

/-- JS truthiness of a possibly-undefined JSON value. -/
def jsTruthyJson : Option Json → Bool
  | some Json.null => false
  | some (Json.bool b) => b
  | some (Json.num q) => decide (q ≠ 0)
  | some (Json.str s) => !s.isEmpty
  | some (Json.arr _) => true
  | some (Json.obj _) => true
  | none => false

mutual

/-- Model of the JS `String(...)` conversion on JSON values.  The fractional
number rendering of JS is not reproduced (its shortest-round-trip algorithm
is out of scope and such values never reach this conversion in `parseJSON`,
which intercepts numbers beforehand); integers render exactly. -/
def jsStringOfJson : Json → List Char
  | Json.null => ('n' :: 'u' :: 'l' :: 'l' :: [])
  | Json.bool true => ('t' :: 'r' :: 'u' :: 'e' :: [])
  | Json.bool false => ('f' :: 'a' :: 'l' :: 's' :: 'e' :: [])
  | Json.num q => if q.den = 1 then intToString q.num else intToString q.num ++ '/' :: natToDigits q.den
  | Json.str s => s
  | Json.arr xs => jsStringOfJsonArray xs
  | Json.obj _ => ("[object Object]").data

/-- `Array.prototype.toString`: elements joined by commas, null rendered
empty. -/
def jsStringOfJsonArray : List Json → List Char
  | [] => []
  | [x] =>
    match x with
    | Json.null => []
    | _ => jsStringOfJson x
  | x :: y :: r =>
    (match x with
     | Json.null => []
     | _ => jsStringOfJson x) ++ ',' :: jsStringOfJsonArray (y :: r)

end

/-- The value of `v || dflt` coerced to our string-typed fields: the raw
value when truthy (JS would keep a non-string unchanged; the declared record
type is a string, so other values are rendered), else the default. -/
def jsStrOr (v : Option Json) (dflt : List Char) : List Char :=
  if jsTruthyJson v then
    match v with
    | some (Json.str s) => s
    | some j => jsStringOfJson j
    | none => dflt
  else dflt

/-- Model of `typeof v === 'number' ? v : timeToMs(String(v || '0'))`. -/
def numOrDecode (v : Option Json) : JsNum :=
  match v with
  | some (Json.num q) => some q
  | _ => timeToMs (if jsTruthyJson v then jsStringOfJson (v.getD Json.null) else ['0'])

/-- Model of `typeof v === 'number' ? v : (v ? timeToMs(String(v)) : undefined)`. -/
def numOrDecodeOpt (v : Option Json) : Option JsNum :=
  match v with
  | some (Json.num q) => some (some q)
  | _ =>
    if jsTruthyJson v then some (timeToMs (jsStringOfJson (v.getD Json.null)))
    else none

/-- Sanitising of one word record of the JSON input; `none` models the
TypeError thrown by a property access on null. -/
def parseJsonWord (i wi : Nat) (w : Json) : Option Word :=
  match w with
  | Json.null => none
  | _ =>
    some { id := jsStrOr (jsProp w (("id").data))
             (("json-w-").data ++ natToDigits i ++ '-' :: natToDigits wi),
           text := jsStrOr (jsProp w (("text").data)) [],
           start := some (numOrDecode (jsProp w (("start").data))),
           endMs := numOrDecodeOpt (jsProp w (("end").data)) }

/-- Sanitising of one cue record of the JSON input. -/
def parseJsonCue (i : Nat) (c : Json) : Option Cue :=
  match c with
  | Json.null => none
  | _ => do
    let words : Option (List Word) ←
      match jsProp c (("words").data) with
      | some (Json.arr ws) => (ws.enum.mapM (fun p => parseJsonWord i p.1 p.2)).map some
      | _ => some none
    some { id := jsStrOr (jsProp c (("id").data)) (("json-").data ++ natToDigits i),
           start := numOrDecode (jsProp c (("start").data)),
           endMs := numOrDecode (jsProp c (("end").data)),
           text := jsStrOr (jsProp c (("text").data)) [],
           words := words }

/-- The four declared fields of a metadata object (the source passes the raw
parsed object through; its declared shape is these four optional strings). -/
def jsonToMetadata (j : Json) : Metadata :=
  { title := match jsProp j (("title").data) with | some (Json.str s) => some s | _ => none,
    artist := match jsProp j (("artist").data) with | some (Json.str s) => some s | _ => none,
    album := match jsProp j (("album").data) with | some (Json.str s) => some s | _ => none,
    byTag := match jsProp j (("by").data) with | some (Json.str s) => some s | _ => none }

/-- The try-block of `parseJSON`: `none` models any exception (a JSON.parse
SyntaxError, or a TypeError from `.cues`/`.map` on an unsuitable value). -/
def parseJSONBody (content : List Char) : Option ParseResult := do
  let parsed ← jsonParse content
  let cuesRaw : List Json ←
    match parsed with
    | Json.arr xs => some xs
    | Json.null => none
    | _ =>
      match (if jsTruthyJson (jsProp parsed (("cues").data))
             then (jsProp parsed (("cues").data)).getD Json.null
             else Json.arr []) with
      | Json.arr xs => some xs
      | _ => none
  let metaJ : Option Json :=
    match parsed with
    | Json.arr _ => none
    | _ => jsProp parsed (("metadata").data)
  let metadata : Metadata :=
    if jsTruthyJson metaJ then jsonToMetadata (metaJ.getD Json.null)
    else { title := some [], artist := some [], album := some [], byTag := some [] }
  let cues ← cuesRaw.enum.mapM (fun p => parseJsonCue p.1 p.2)
  some { cues := cues, metadata := metadata }

/-- Model of `parseJSON`: the try-block with its catch returning the empty
result. -/
def parseJSON (content : List Char) : ParseResult :=
  match parseJSONBody content with
  | some r => r
  | none => { cues := [], metadata := {} }

/-- C5: a malformed JSON document yields the empty parse result; `parseJSON`
is a total function (never throws) by construction. -/
theorem claim5_malformed_json (content : List Char) (h : jsonParse content = none) :
    parseJSON content = { cues := [], metadata := {} } := by
  rw [parseJSON, parseJSONBody, h]
  rfl

/-- Witness for C5 at a concrete non-JSON input. -/
theorem claim5_malformed_json_witness :
    jsonParse (("not json").data) = none ∧
    parseJSON (("not json").data) = { cues := [], metadata := {} } :=
  ⟨by rfl, claim5_malformed_json (("not json").data) (by rfl)⟩

/-! Facts about the end-inference pass. -/

theorem inferEnds_length (l : List Cue) : (inferEnds l).length = l.length := by
  induction l with
  | nil => rfl
  | cons c rest ih =>
    cases rest with
    | nil => rfl
    | cons c2 r2 => simpa [inferEnds] using ih

theorem inferEnds_getElem?_start (l : List Cue) (i : Nat) :
    ((inferEnds l)[i]?).map Cue.start = (l[i]?).map Cue.start := by
  induction l generalizing i with
  | nil => rfl
  | cons c rest ih =>
    cases rest with
    | nil => rfl
    | cons c2 r2 =>
      cases i with
      | zero => simp [inferEnds]
      | succ j =>
        rw [inferEnds, List.getElem?_cons_succ, List.getElem?_cons_succ]
        exact ih j

theorem inferEnds_getElem?_endMs (l : List Cue) (i : Nat) (h : i + 1 < l.length) :
    ((inferEnds l)[i]?).map Cue.endMs = (l[i + 1]?).map Cue.start := by
  induction l generalizing i with
  | nil => simp at h
  | cons c rest ih =>
    cases rest with
    | nil => simp at h
    | cons c2 r2 =>
      cases i with
      | zero => simp [inferEnds]
      | succ j =>
        rw [inferEnds, List.getElem?_cons_succ, List.getElem?_cons_succ]
        exact ih j (by simp at h ⊢; omega)

theorem inferEnds_last_elem (l : List Cue) (i : Nat) (h : i + 1 = l.length) :
    (inferEnds l)[i]? = l[i]? := by
  induction l generalizing i with
  | nil => rfl
  | cons c rest ih =>
    cases rest with
    | nil => rfl
    | cons c2 r2 =>
      cases i with
      | zero => simp at h
      | succ j =>
        rw [inferEnds, List.getElem?_cons_succ, List.getElem?_cons_succ]
        exact ih j (by simp at h ⊢; omega)

theorem inferEnds_getLast? (l : List Cue) : (inferEnds l).getLast? = l.getLast? := by
  rw [List.getLast?_eq_getElem?, List.getLast?_eq_getElem?, inferEnds_length]
  cases l with
  | nil => rfl
  | cons c rest => exact inferEnds_last_elem _ _ (by simp)

theorem lrcLineToCue_endMs {idx : Nat} {line : List Char} {c : Cue}
    (h : lrcLineToCue idx line = some c) : c.endMs = jsAdd c.start (some 3000) := by
  rw [lrcLineToCue] at h
  split at h
  · exact absurd h (by simp)
  · split at h <;>
    · rw [Option.some_inj] at h
      subst h
      rfl

/-- C7: LRC end-time inference.  For every input, every non-final parsed cue's
end equals the next cue's start, and the last cue's end equals its own start
plus 3000 ms. -/
theorem claim7_lrc_end_inference (content : List Char) :
    (∀ i : Nat, i + 1 < (parseLRC content).cues.length →
      (((parseLRC content).cues[i]?).map Cue.endMs =
       ((parseLRC content).cues[i + 1]?).map Cue.start)) ∧
    ((parseLRC content).cues ≠ [] →
      ((parseLRC content).cues.getLast?).map Cue.endMs =
      ((parseLRC content).cues.getLast?).map (fun c => jsAdd c.start (some 3000))) := by
  have hinv : ∀ c ∈ (splitLines content).enum.filterMap (fun p => lrcLineToCue p.1 p.2),
      c.endMs = jsAdd c.start (some 3000) := by
    intro c hc
    obtain ⟨p, _, hp⟩ := List.mem_filterMap.mp hc
    exact lrcLineToCue_endMs hp
  constructor
  · intro i h
    have hlen : i + 1 <
        ((splitLines content).enum.filterMap (fun p => lrcLineToCue p.1 p.2)).length := by
      have := inferEnds_length ((splitLines content).enum.filterMap (fun p => lrcLineToCue p.1 p.2))
      simpa [parseLRC, this] using h
    show ((inferEnds _)[i]?).map Cue.endMs = ((inferEnds _)[i + 1]?).map Cue.start
    rw [inferEnds_getElem?_endMs _ i hlen, inferEnds_getElem?_start]
  · intro hne
    show ((inferEnds _).getLast?).map Cue.endMs =
      ((inferEnds _).getLast?).map (fun c => jsAdd c.start (some 3000))
    rw [inferEnds_getLast?]
    cases hl : ((splitLines content).enum.filterMap (fun p => lrcLineToCue p.1 p.2)).getLast? with
    | none => rfl
    | some clast =>
      have hmem : clast ∈ (splitLines content).enum.filterMap (fun p => lrcLineToCue p.1 p.2) := by
        rw [List.getLast?_eq_getElem?] at hl
        exact List.getElem?_mem hl
      simp [hinv clast hmem]

/-- A small enhanced-free LRC document used as the concrete witness input. -/
def lrcDemo : List Char :=
  ['[', '0', '0', ':', '0', '1', '.', '0', '0', ']', 'a', '\n',
   '[', '0', '0', ':', '0', '5', '.', '0', '0', ']', 'b']

/-- Witness for C7 at a concrete input. -/
theorem claim7_lrc_end_inference_witness :
    (((parseLRC lrcDemo).cues[0]?).map Cue.endMs =
     ((parseLRC lrcDemo).cues[1]?).map Cue.start) ∧
    (((parseLRC lrcDemo).cues.getLast?).map Cue.endMs =
     ((parseLRC lrcDemo).cues.getLast?).map (fun c => jsAdd c.start (some 3000))) :=
  ⟨(claim7_lrc_end_inference lrcDemo).1 0 (by decide),
   (claim7_lrc_end_inference lrcDemo).2 (by decide)⟩

/-- Witness for C4 at concrete inputs. -/
theorem claim4_suffix_and_fraction_rules_witness :
    timeToMs (padNat 2 1 ++ ':' :: padNat 2 23 ++ ['.', digitChar 4]) =
      some ((1 * 60000 + 23 * 1000 + 4 * 100 : Nat) : ℚ) ∧
    timeToMs ['5', '0', '0', 'm', 's'] =
      parseFloat ((jsTrim ['5', '0', '0', 'm', 's']).take
        ((jsTrim ['5', '0', '0', 'm', 's']).length - 2)) :=
  ⟨claim4_suffix_and_fraction_rules.2.2.1 1 23 4 (by norm_num) (by norm_num) (by norm_num),
   claim4_suffix_and_fraction_rules.1 ['5', '0', '0', 'm', 's'] (by decide)⟩

end LyricalEditor
